import Mathlib

/-!
Verification of `utils.py` from the Cidades repository.

The file shallowly embeds the two functions the claims are about:

* `classifica_cafe` (utils.py lines 26-59): a pure per-record classifier
  returning one of the three confidence tiers "alta" / "media" / "baixa".

* `calcular_voronoi` (utils.py lines 100-148): given the scipy Voronoi
  diagram of the input coordinates and a boundary GeoDataFrame, it unions
  the boundary geometries, walks `vor.point_region` in input-point order,
  skips empty regions and regions containing the vertex-at-infinity
  marker `-1`, builds a shapely polygon from the remaining regions'
  vertices, intersects it with the boundary union, drops empty
  intersections, and packs the survivors into a fresh GeoDataFrame whose
  crs is copied from the boundary GeoDataFrame.

Planar coordinates are idealised as pairs of rationals.  The scipy
diagram is embedded as the record of arrays the code reads
(`vertices`, `regions`, `point_region`).  The shapely geometry layer is
embedded as a `GeomKernel`: a type of geometry values together with the
operations the code calls (`Polygon`, `.intersection`, `unary_union`,
`.is_empty`) and their documented set semantics (intersection is set
intersection, `unary_union` is the union of the list, `.is_empty` decides
emptiness of the point set), plus a topological-interior operator used to
state the disjoint-interior property.  `finKernel` is a concrete
executable kernel used to evaluate the theorems on concrete inputs.
-/

/-- A planar coordinate, idealising the floating-point (x, y) pairs. -/
abbrev Q2 : Type := ℚ × ℚ

/-- Pointwise union of the semantics of a list of geometries; the set
the spec calls "the union of the boundary polygons". -/
def unionSemOf {G : Type} (sem : G → Set Q2) (gs : List G) : Set Q2 :=
  {x | ∃ g ∈ gs, x ∈ sem g}

/-- Model of the shapely geometry layer: a type of geometry values with
the operations `calcular_voronoi` calls, their set semantics, and the
laws shapely documents for them.  `intr` is the topological interior of
a point set, only constrained to be monotone. -/
structure GeomKernel where
  Geo : Type
  sem : Geo → Set Q2
  polygonOf : List Q2 → Geo
  inter : Geo → Geo → Geo
  unionAll : List Geo → Geo
  is_empty : Geo → Bool
  intr : Set Q2 → Set Q2
  sem_inter : ∀ a b : Geo, sem (inter a b) = sem a ∩ sem b
  sem_unionAll : ∀ gs : List Geo, sem (unionAll gs) = unionSemOf sem gs
  is_empty_iff : ∀ g : Geo, is_empty g = true ↔ sem g = ∅
  intr_mono : ∀ {A B : Set Q2}, A ⊆ B → intr A ⊆ intr B

/-- The scipy `Voronoi` output record, exactly the three arrays the code
reads: `vor.vertices`, `vor.regions` (index `-1` marks the vertex at
infinity), and `vor.point_region` (one region index per input point, in
input-point order). -/
structure VoronoiDiagram where
  vertices : List Q2
  regions : List (List Int)
  point_region : List Nat

/-- A GeoDataFrame as the code uses it: a geometry column, the pandas
row index (a fresh `RangeIndex 0..k-1` when none is given), and a crs. -/
structure GeoDataFrame (G : Type) where
  geometry : List G
  index : List Nat
  crs : Option String

/-- An input record (pandas row) with the OSM attribute columns
`classifica_cafe` reads; a missing value is `none`. -/
structure Row where
  amenity : Option String
  shop : Option String
  cuisine : Option String
  name : Option String

/-- Python `str.lower()` restricted to the ASCII range, as a char list. -/
def lowerStr (s : String) : List Char :=
  s.data.map Char.toLower

/-- Decides whether `pat` occurs at the head of `s`. -/
def isPrefOf : List Char → List Char → Bool
  | [], _ => true
  | _ :: _, [] => false
  | a :: as, b :: bs => a == b && isPrefOf as bs

/-- Python `pat in s` substring containment on char lists. -/
def containsSub (pat : List Char) : List Char → Bool
  | [] => isPrefOf pat []
  | b :: bs => isPrefOf pat (b :: bs) || containsSub pat bs

/-- Embedding of `classifica_cafe` (utils.py lines 26-59): classify a
record into the tier "alta", "media" or "baixa" from its OSM tags. -/
def classifica_cafe (row : Row) : String :=
  if row.amenity == some "cafe" || row.shop == some "coffee" ||
      row.cuisine == some "cafe" || row.cuisine == some "coffee_shop" then
    "alta"
  else
    let nome := lowerStr (row.name.getD "")
    if row.shop == some "bakery" || row.shop == some "confectionery" ||
        row.cuisine == some "bakery" || row.cuisine == some "breakfast" ||
        row.cuisine == some "dessert" ||
        ["cafe", "coffee", "cafeteria", "espresso", "café"].any
          (fun termo => containsSub termo.data nome) then
      "media"
    else
      "baixa"

/-- The region list `vor.regions[ri]` the loop body reads for the region
index `ri` taken from `vor.point_region`. -/
def regionOf (vor : VoronoiDiagram) (ri : Nat) : List Int :=
  vor.regions.getD ri []

/-- The vertex coordinates of a region,
`[vor.vertices[i] for i in region]`. -/
def regionCoords (vor : VoronoiDiagram) (region : List Int) : List Q2 :=
  region.map (fun i => vor.vertices.getD i.toNat (0, 0))

/-- Embedding of the loop of `calcular_voronoi` (utils.py lines
123-148) after the diagram has been built: union the boundary
geometries, walk `vor.point_region` in order, skip empty regions and
regions containing `-1`, clip the remaining region polygons against the
boundary union, drop empty clips, and pack the surviving geometries into
a GeoDataFrame with a fresh range index and the boundary's crs. -/
def calcular_voronoi_core (K : GeomKernel) (vor : VoronoiDiagram)
    (boundary_gdf : GeoDataFrame K.Geo) : GeoDataFrame K.Geo :=
  let boundary := K.unionAll boundary_gdf.geometry
  let voronoi_polygons := vor.point_region.filterMap (fun region_index =>
    let region := regionOf vor region_index
    if region.isEmpty || region.contains (-1) then
      none
    else
      let polygon := K.polygonOf (regionCoords vor region)
      let clipped_polygon := K.inter polygon boundary
      if K.is_empty clipped_polygon then none else some clipped_polygon)
  { geometry := voronoi_polygons,
    index := List.range voronoi_polygons.length,
    crs := boundary_gdf.crs }

/-- The cross product used to detect collinearity of three points. -/
def cross (a b c : Q2) : ℚ :=
  (b.1 - a.1) * (c.2 - a.2) - (b.2 - a.2) * (c.1 - a.1)

/-- The qhull precondition behind `scipy.spatial.Voronoi` on planar
input, as the spec states it: at least 4 distinct points, not all
collinear.  scipy is an external library; this models the condition
under which its constructor succeeds rather than raising `QhullError`. -/
def qhullCheck (pts : List Q2) : Bool :=
  decide (4 ≤ pts.dedup.length) &&
    pts.any (fun a => pts.any (fun b => pts.any (fun c =>
      decide (cross a b c ≠ 0))))

/-- Embedding of the whole of `calcular_voronoi` (utils.py lines
100-148).  The scipy constructor `Voronoi(cafe_coords)` is modelled by
the parameter `vorOf` together with the qhull degeneracy check: on
degenerate input the constructor raises before anything else runs, so
the call produces an error and no partial result; otherwise the loop
runs on the constructed diagram. -/
def calcular_voronoi (K : GeomKernel) (vorOf : List Q2 → VoronoiDiagram)
    (cafe_coords : List Q2) (boundary_gdf : GeoDataFrame K.Geo) :
    Except String (GeoDataFrame K.Geo) :=
  if qhullCheck cafe_coords then
    Except.ok (calcular_voronoi_core K (vorOf cafe_coords) boundary_gdf)
  else
    Except.error "QhullError"

/-- Whether the region of index `ri` is kept by the loop: nonempty and
not referencing the vertex-at-infinity marker `-1`. -/
def boundedAt (vor : VoronoiDiagram) (ri : Nat) : Bool :=
  !(regionOf vor ri).isEmpty && !(regionOf vor ri).contains (-1)

/-- The clipping step applied to one kept region: intersect its polygon
with the boundary and drop it when the intersection is empty. -/
def clipAt (K : GeomKernel) (vor : VoronoiDiagram) (boundary : K.Geo)
    (ri : Nat) : Option K.Geo :=
  let polygon := K.polygonOf (regionCoords vor (regionOf vor ri))
  let clipped := K.inter polygon boundary
  if K.is_empty clipped then none else some clipped

/-- Modelled from the spec: the Tessellator contract
`tessellate(points, boundary) -> sequence of (index, Cell)` — emit the
surviving (generator index, clipped-cell) pairs in input point order,
skipping unbounded regions and empty clips.  This definition follows the
spec's words; the source function returns no generator indices, and the
two are compared by the C2 theorems. -/
def tessellate_spec (K : GeomKernel) (vor : VoronoiDiagram)
    (boundary_gdf : GeoDataFrame K.Geo) : List (Nat × K.Geo) :=
  (vor.point_region.enum).filterMap (fun p =>
    if boundedAt vor p.2 then
      (clipAt K vor (K.unionAll boundary_gdf.geometry) p.2).map
        (fun c => (p.1, c))
    else
      none)

/-- A concrete executable geometry kernel: a geometry value is a finite
set of rational points, intersection and union are the set operations,
emptiness is decidable, and the interior operator is the identity.  It
satisfies every kernel law and is used to evaluate the theorems on
concrete inputs. -/
def finKernel : GeomKernel where
  Geo := Finset Q2
  sem g := ↑g
  polygonOf verts := verts.toFinset
  inter a b := a ∩ b
  unionAll gs := gs.foldr (fun a b => a ∪ b) ∅
  is_empty g := decide (g = ∅)
  intr := id
  sem_inter a b := Finset.coe_inter a b
  sem_unionAll gs := by
    induction gs with
    | nil =>
      ext x
      simp [unionSemOf]
    | cons a rest ih =>
      ext x
      simp only [List.foldr_cons, Finset.coe_union, Set.mem_union, ih,
        unionSemOf, Set.mem_setOf_eq, List.mem_cons, Finset.mem_coe]
      constructor
      · rintro (h | ⟨g, hg, hx⟩)
        · exact ⟨a, Or.inl rfl, h⟩
        · exact ⟨g, Or.inr hg, hx⟩
      · rintro ⟨g, rfl | hg, hx⟩
        · exact Or.inl hx
        · exact Or.inr ⟨g, hg, hx⟩
  is_empty_iff g := by simp
  intr_mono h := h

instance : DecidableEq finKernel.Geo :=
  inferInstanceAs (DecidableEq (Finset Q2))

/-- Concrete diagram: point 0 has region `[-1, 0]` (unbounded, on the
hull), point 1 has the bounded triangular region `[0, 1, 2]`. -/
def vor0 : VoronoiDiagram where
  vertices := [(0, 0), (4, 0), (0, 4)]
  regions := [[-1, 0], [0, 1, 2]]
  point_region := [0, 1]

/-- The vertex set of the bounded region of `vor0`. -/
def tri0 : Finset Q2 :=
  ([(0, 0), (4, 0), (0, 4)] : List Q2).toFinset

/-- A concrete boundary GeoDataFrame containing `tri0`. -/
def bgdf0 : GeoDataFrame finKernel.Geo where
  geometry := [tri0]
  index := [0]
  crs := some "EPSG:31984"

/-- Concrete diagram with two bounded regions whose vertex sets are
disjoint. -/
def vor1 : VoronoiDiagram where
  vertices := [(0, 0), (1, 0), (0, 1), (5, 5), (6, 5), (5, 6)]
  regions := [[0, 1, 2], [3, 4, 5]]
  point_region := [0, 1]

/-- The vertex set of the first region of `vor1`. -/
def triA : Finset Q2 :=
  ([(0, 0), (1, 0), (0, 1)] : List Q2).toFinset

/-- The vertex set of the second region of `vor1`. -/
def triB : Finset Q2 :=
  ([(5, 5), (6, 5), (5, 6)] : List Q2).toFinset

/-- A concrete boundary GeoDataFrame covering both regions of `vor1`. -/
def bgdf1 : GeoDataFrame finKernel.Geo where
  geometry := [triA, triB]
  index := [0, 1]
  crs := none

/-- Two successive calls of the tessellation with the same arguments.
`utils.py` declares no module-level mutable state and
`calcular_voronoi` reads nothing but its arguments, so the embedded
computation is a pure function and both components are produced by the
same expression applied to the same arguments. -/
def tessellate_twice (K : GeomKernel) (vorOf : List Q2 → VoronoiDiagram)
    (cafe_coords : List Q2) (boundary_gdf : GeoDataFrame K.Geo) :
    Except String (GeoDataFrame K.Geo) × Except String (GeoDataFrame K.Geo) :=
  (calcular_voronoi K vorOf cafe_coords boundary_gdf,
    calcular_voronoi K vorOf cafe_coords boundary_gdf)


/-- Two `filterMap` passes with pointwise equal step functions agree. -/
theorem filterMap_ext {α β : Type} (f g : α → Option β)
    (h : ∀ a, f a = g a) (l : List α) :
    l.filterMap f = l.filterMap g := by
  induction l with
  | nil => rfl
  | cons a as ih => rw [List.filterMap_cons, List.filterMap_cons, h a, ih]

/-- The loop body of `calcular_voronoi_core` in guarded form: a region
index contributes `clipAt` of itself when it is kept and nothing
otherwise. -/
theorem core_geometry_eq_step (K : GeomKernel) (vor : VoronoiDiagram)
    (bgdf : GeoDataFrame K.Geo) :
    (calcular_voronoi_core K vor bgdf).geometry =
      vor.point_region.filterMap (fun ri =>
        if boundedAt vor ri then
          clipAt K vor (K.unionAll bgdf.geometry) ri
        else
          none) := by
  simp only [calcular_voronoi_core]
  apply filterMap_ext
  intro ri
  by_cases hc : ((regionOf vor ri).isEmpty || (regionOf vor ri).contains (-1)) = true
  · have hb : boundedAt vor ri = false := by
      simp only [boundedAt, ← Bool.not_or, hc, Bool.not_true]
    rw [if_pos hc, if_neg (by simp [hb])]
  · have hc2 : ((regionOf vor ri).isEmpty || (regionOf vor ri).contains (-1)) = false :=
      Bool.not_eq_true _ ▸ hc
    have hb : boundedAt vor ri = true := by
      simp only [boundedAt, ← Bool.not_or, hc2, Bool.not_false]
    rw [if_neg hc, if_pos hb]
    rfl

/-- Filtering with a guard inside `filterMap` is filtering first. -/
theorem filterMap_guard_eq {α β : Type} (p : α → Bool) (f : α → Option β)
    (l : List α) :
    l.filterMap (fun a => if p a then f a else none) =
      (l.filter p).filterMap f := by
  induction l with
  | nil => rfl
  | cons a as ih =>
    by_cases h : p a <;>
      simp [List.filterMap_cons, List.filter_cons, h, ih]

/-- Inversion of the clipping step: a produced geometry is exactly the
intersection of the region's polygon with the boundary. -/
theorem clipAt_eq_some {K : GeomKernel} {vor : VoronoiDiagram}
    {boundary : K.Geo} {ri : Nat} {g : K.Geo}
    (h : clipAt K vor boundary ri = some g) :
    g = K.inter (K.polygonOf (regionCoords vor (regionOf vor ri))) boundary := by
  simp only [clipAt] at h
  split at h
  · cases h
  · injection h with h
    exact h.symm

/-- Every geometry in the output of the loop comes from a kept region
of some generator, and is its polygon intersected with the boundary
union. -/
theorem mem_core_geometry {K : GeomKernel} {vor : VoronoiDiagram}
    {bgdf : GeoDataFrame K.Geo} {g : K.Geo}
    (hg : g ∈ (calcular_voronoi_core K vor bgdf).geometry) :
    ∃ ri ∈ vor.point_region, boundedAt vor ri = true ∧
      g = K.inter (K.polygonOf (regionCoords vor (regionOf vor ri)))
        (K.unionAll bgdf.geometry) := by
  rw [core_geometry_eq_step] at hg
  rcases List.mem_filterMap.1 hg with ⟨ri, hri, hstep⟩
  by_cases hb : boundedAt vor ri = true
  · rw [if_pos hb] at hstep
    exact ⟨ri, hri, hb, clipAt_eq_some hstep⟩
  · rw [if_neg hb] at hstep
    cases hstep

/-- Dropping the position from an enumerated `filterMap` whose step
only looks at the element. -/
theorem filterMap_enumFrom_snd {α β : Type} (f : α → Option β)
    (l : List α) (n : Nat) :
    (l.enumFrom n).filterMap (fun p => f p.2) = l.filterMap f := by
  induction l generalizing n with
  | nil => rfl
  | cons a as ih =>
    rw [List.enumFrom_cons, List.filterMap_cons, List.filterMap_cons]
    cases f a <;> simp [ih]

/-- A list filtered by a predicate that fails on one of its members is
strictly shorter than the list. -/
theorem length_filter_lt_of_mem_neg {α : Type} {p : α → Bool} {l : List α}
    {a : α} (ha : a ∈ l) (hpa : p a = false) :
    (l.filter p).length < l.length := by
  induction l with
  | nil => cases ha
  | cons b bs ih =>
    rcases List.mem_cons.1 ha with rfl | hmem
    · rw [List.filter_cons, hpa]
      simp only [List.length_cons]
      exact Nat.lt_succ_of_le (List.length_filter_le p bs)
    · rw [List.filter_cons]
      by_cases hb : p b = true
      · rw [if_pos hb]
        simp only [List.length_cons]
        exact Nat.succ_lt_succ (ih hmem)
      · rw [if_neg hb]
        simp only [List.length_cons]
        exact Nat.lt_succ_of_lt (ih hmem)

/-- The union of no geometries has empty semantics. -/
theorem unionSemOf_nil {G : Type} (sem : G → Set Q2) :
    unionSemOf sem [] = ∅ := by
  ext x
  simp [unionSemOf]

/-- C1: for every input, every generator whose Voronoi region is
unbounded (its region list is empty or references the
vertex-at-infinity marker `-1`, i.e. the generator lies on the convex
hull) contributes no entry to the output: the output geometries are
exactly the surviving clips of the kept bounded regions, each produced
by intersection with the resolved boundary alone — no ray-clipping
against an artificial bounding box occurs anywhere. -/
theorem unbounded_regions_skipped (K : GeomKernel) (vor : VoronoiDiagram)
    (bgdf : GeoDataFrame K.Geo) :
    (calcular_voronoi_core K vor bgdf).geometry =
      (vor.point_region.filter (fun ri => boundedAt vor ri)).filterMap
        (clipAt K vor (K.unionAll bgdf.geometry)) := by
  rw [core_geometry_eq_step, filterMap_guard_eq]

/-- C2 as stated fails: on `vor0`/`bgdf0` the only surviving cell
originates from generator 1, but the returned GeoDataFrame pairs it
with row index 0 — the rows of the output, read with their index, are
not the (generator index, cell) pairs of the spec contract. -/
theorem output_rows_not_generator_pairs :
    (calcular_voronoi_core finKernel vor0 bgdf0).index.zip
        (calcular_voronoi_core finKernel vor0 bgdf0).geometry ≠
      tessellate_spec finKernel vor0 bgdf0 := by
  decide

/-- C2 amended: the output is the sequence of surviving clipped cells
in input point order, equal to the spec's (generator index, cell)
sequence with the generator indices dropped; the originating indices
themselves are not recorded in the output, whose rows carry a fresh
range index instead. -/
theorem cells_in_input_order_without_indices (K : GeomKernel)
    (vor : VoronoiDiagram) (bgdf : GeoDataFrame K.Geo) :
    (calcular_voronoi_core K vor bgdf).geometry =
      (tessellate_spec K vor bgdf).map Prod.snd := by
  rw [tessellate_spec, List.map_filterMap, core_geometry_eq_step,
    List.enum_eq_enumFrom,
    ← filterMap_enumFrom_snd (fun ri =>
      if boundedAt vor ri then
        clipAt K vor (K.unionAll bgdf.geometry) ri
      else
        none) vor.point_region 0]
  apply filterMap_ext
  intro p
  by_cases hb : boundedAt vor p.2 = true
  · rw [if_pos hb, if_pos hb]
    cases h : clipAt K vor (K.unionAll bgdf.geometry) p.2 <;> simp [h]
  · rw [if_neg hb, if_neg hb]
    rfl

/-- C3: the tessellation produces the input-validity error exactly on
inputs failing the modelled qhull precondition (fewer than 4 distinct
points, or all points collinear) and then yields no partial result,
while every input meeting the precondition yields an output
GeoDataFrame rather than an error. -/
theorem input_validity_error_total (K : GeomKernel)
    (vorOf : List Q2 → VoronoiDiagram) (pts : List Q2)
    (bgdf : GeoDataFrame K.Geo) :
    ((∃ e, calcular_voronoi K vorOf pts bgdf = Except.error e) ↔
        qhullCheck pts = false) ∧
      ((∃ out, calcular_voronoi K vorOf pts bgdf = Except.ok out) ↔
        qhullCheck pts = true) := by
  unfold calcular_voronoi
  cases h : qhullCheck pts <;> simp [h]

/-- C4: every cell emitted by the tessellation is contained in the
resolved boundary region, i.e. its point set is a subset of the union
of the boundary polygons. -/
theorem cells_within_boundary (K : GeomKernel) (vor : VoronoiDiagram)
    (bgdf : GeoDataFrame K.Geo) (g : K.Geo)
    (hg : g ∈ (calcular_voronoi_core K vor bgdf).geometry) :
    K.sem g ⊆ unionSemOf K.sem bgdf.geometry := by
  obtain ⟨ri, -, -, rfl⟩ := mem_core_geometry hg
  rw [K.sem_inter, K.sem_unionAll]
  exact Set.inter_subset_right

/-- Evaluation of C4 on a concrete input: `tri0` is an emitted cell of
`calcular_voronoi_core finKernel vor0 bgdf0` and its point set is
inside the boundary union. -/
theorem cells_within_boundary_witness :
    tri0 ∈ (calcular_voronoi_core finKernel vor0 bgdf0).geometry ∧
      finKernel.sem tri0 ⊆ unionSemOf finKernel.sem bgdf0.geometry :=
  ⟨by decide, cells_within_boundary finKernel vor0 bgdf0 tri0 (by decide)⟩

/-- C5: when the regions of the diagram have pairwise disjoint
interiors across the generators — which holds for a genuine Voronoi
diagram of distinct points — the emitted cells also have pairwise
disjoint interiors: clipping against a common boundary preserves the
disjointness. -/
theorem emitted_cells_interiors_disjoint (K : GeomKernel)
    (vor : VoronoiDiagram) (bgdf : GeoDataFrame K.Geo)
    (hdisj : vor.point_region.Pairwise (fun ri rj =>
      K.intr (K.sem (K.polygonOf (regionCoords vor (regionOf vor ri)))) ∩
        K.intr (K.sem (K.polygonOf (regionCoords vor (regionOf vor rj)))) = ∅)) :
    (calcular_voronoi_core K vor bgdf).geometry.Pairwise (fun g h =>
      K.intr (K.sem g) ∩ K.intr (K.sem h) = ∅) := by
  rw [core_geometry_eq_step]
  refine List.Pairwise.filterMap _ ?_ hdisj
  intro ri rj hR g hg h' hh
  have hkey : ∀ rk : Nat, ∀ b : K.Geo,
      b ∈ (if boundedAt vor rk then
        clipAt K vor (K.unionAll bgdf.geometry) rk else none) →
      K.intr (K.sem b) ⊆
        K.intr (K.sem (K.polygonOf (regionCoords vor (regionOf vor rk)))) := by
    intro rk b hb
    by_cases hbk : boundedAt vor rk = true
    · rw [if_pos hbk] at hb
      have hbeq := clipAt_eq_some (Option.mem_def.1 hb)
      apply K.intr_mono
      rw [hbeq, K.sem_inter]
      exact Set.inter_subset_left
    · rw [if_neg hbk] at hb
      cases hb
  exact Set.subset_empty_iff.1
    (hR ▸ Set.inter_subset_inter (hkey ri g hg) (hkey rj h' hh))

/-- Evaluation of C5 on a concrete input: the two regions of `vor1`
have disjoint interiors and so do the two cells emitted for them. -/
theorem emitted_cells_interiors_disjoint_witness :
    (calcular_voronoi_core finKernel vor1 bgdf1).geometry.Pairwise
      (fun g h =>
        finKernel.intr (finKernel.sem g) ∩
          finKernel.intr (finKernel.sem h) = ∅) :=
  emitted_cells_interiors_disjoint finKernel vor1 bgdf1 (by
    constructor
    · intro rj hrj
      have hj : rj = 1 := by simpa using hrj
      subst hj
      show (↑triA : Set Q2) ∩ ↑triB = ∅
      rw [← Finset.coe_inter, show triA ∩ triB = ∅ from by decide,
        Finset.coe_empty]
    · exact List.pairwise_singleton _ _)

/-- C6: the number of emitted cells never exceeds the number of
entries of `point_region` (one per input point), and is strictly
smaller whenever some input point's region references the
vertex-at-infinity marker `-1` — the diagram's marker for a generator
on the convex hull. -/
theorem cell_count_le_points (K : GeomKernel) (vor : VoronoiDiagram)
    (bgdf : GeoDataFrame K.Geo) :
    (calcular_voronoi_core K vor bgdf).geometry.length ≤
        vor.point_region.length ∧
      ((∃ ri ∈ vor.point_region, (regionOf vor ri).contains (-1) = true) →
        (calcular_voronoi_core K vor bgdf).geometry.length <
          vor.point_region.length) := by
  rw [core_geometry_eq_step, filterMap_guard_eq]
  constructor
  · exact le_trans (List.length_filterMap_le _ _) (List.length_filter_le _ _)
  · rintro ⟨ri, hri, hc⟩
    have hb : boundedAt vor ri = false := by
      simp only [boundedAt, hc, Bool.not_true, Bool.and_false]
    exact lt_of_le_of_lt (List.length_filterMap_le _ _)
      (length_filter_lt_of_mem_neg hri hb)

/-- Evaluation of C6 on a concrete input: `vor0` has the hull generator
0, and the call emits 1 cell out of 2 points. -/
theorem cell_count_le_points_witness :
    (calcular_voronoi_core finKernel vor0 bgdf0).geometry.length ≤
        vor0.point_region.length ∧
      (calcular_voronoi_core finKernel vor0 bgdf0).geometry.length <
        vor0.point_region.length :=
  ⟨(cell_count_le_points finKernel vor0 bgdf0).1,
    (cell_count_le_points finKernel vor0 bgdf0).2 ⟨0, by decide, by decide⟩⟩

/-- C7: with an empty boundary input sequence the resolver's union is
the empty region (and no error is produced), and tessellating any
diagram against it emits zero cells. -/
theorem empty_boundary_zero_cells (K : GeomKernel) (vor : VoronoiDiagram)
    (ix : List Nat) (crs : Option String) :
    K.is_empty (K.unionAll ([] : List K.Geo)) = true ∧
      (calcular_voronoi_core K vor
        { geometry := [], index := ix, crs := crs }).geometry = [] := by
  have hsem : K.sem (K.unionAll ([] : List K.Geo)) = ∅ := by
    rw [K.sem_unionAll, unionSemOf_nil]
  refine ⟨(K.is_empty_iff _).2 hsem, ?_⟩
  rw [core_geometry_eq_step]
  have hred : ({ geometry := [], index := ix, crs := crs } :
      GeoDataFrame K.Geo).geometry = [] := rfl
  rw [hred]
  apply List.filterMap_eq_nil_iff.2
  intro ri _
  by_cases hb : boundedAt vor ri = true
  · rw [if_pos hb]
    simp only [clipAt]
    have he : K.is_empty (K.inter
        (K.polygonOf (regionCoords vor (regionOf vor ri)))
        (K.unionAll ([] : List K.Geo))) = true := by
      apply (K.is_empty_iff _).2
      rw [K.sem_inter, hsem, Set.inter_empty]
    rw [if_pos he]
  · rw [if_neg hb]

/-- C8: the tessellation is deterministic and has no shared mutable
state across calls — `utils.py` declares no module-level mutable state
and the computation reads only its arguments, so two calls with
identical inputs produce identical outputs. -/
theorem tessellation_deterministic (K : GeomKernel)
    (vorOf : List Q2 → VoronoiDiagram) (pts : List Q2)
    (bgdf : GeoDataFrame K.Geo) :
    (tessellate_twice K vorOf pts bgdf).1 =
      (tessellate_twice K vorOf pts bgdf).2 :=
  rfl

/-- C9: the per-record confidence classification always returns one of
the three categorical tiers — in the code's literals "alta" (high),
"media" (medium), "baixa" (low). -/
theorem confidence_tag_three_values (row : Row) :
    classifica_cafe row = "alta" ∨ classifica_cafe row = "media" ∨
      classifica_cafe row = "baixa" := by
  simp only [classifica_cafe]
  split
  · exact Or.inl rfl
  · split
    · exact Or.inr (Or.inl rfl)
    · exact Or.inr (Or.inr rfl)

/-- C10: the returned GeoDataFrame's crs is copied from the boundary
GeoDataFrame, whatever the diagram and however many cells survive. -/
theorem output_crs_eq_boundary_crs (K : GeomKernel) (vor : VoronoiDiagram)
    (bgdf : GeoDataFrame K.Geo) :
    (calcular_voronoi_core K vor bgdf).crs = bgdf.crs :=
  rfl
